import Mathlib

/-!
# Verification of the `html_find` crawler (`src/main.rs`)

Shallow embedding of the crawler's core: URL parsing/resolution (modelling the
behaviour of the `url` crate for the reference forms the program exercises),
the reachability check `check_link`, base-URL computation `get_base_url`,
sitemap extraction/filtering, the link/image checking procedure
`find_broken_links_or_images`, and the `main` orchestration for page and
sitemap modes.  Network I/O is modelled by oracles (`String → ProbeResult`
for reachability probes, `String → Except CrawlError Document` for document
fetches); a Rust `panic!` (from `unwrap()`) is modelled by a dedicated
`Outcome.panicked` constructor, distinct from `Result::Err` propagation.
-/

namespace HtmlFind

/-! ## String helpers -/

/-- `leadingRun pat s` is true when `pat` is an initial run of `s`
(character-by-character). -/
def leadingRun : List Char → List Char → Bool
  | [], _ => true
  | _ :: _, [] => false
  | a :: as, b :: bs => a == b && leadingRun as bs

/-- `occursWithin pat s` is true when `pat` occurs contiguously somewhere in
`s`.  Models Rust's `str::contains` on literal patterns. -/
def occursWithin (pat : List Char) : List Char → Bool
  | [] => leadingRun pat []
  | c :: rest => leadingRun pat (c :: rest) || occursWithin pat rest

/-- Rust `haystack.contains(needle)` for string slices. -/
def strContains (haystack needle : String) : Bool :=
  occursWithin needle.data haystack.data

/-- Split a character list at the first occurrence of `sep`: returns the part
before and, when `sep` occurs, the part after it. -/
def splitOnceChar (sep : Char) : List Char → List Char × Option (List Char)
  | [] => ([], none)
  | c :: rest =>
    if c == sep then ([], some rest)
    else
      let p := splitOnceChar sep rest
      (c :: p.1, p.2)

/-- Keep everything up to and including the last `/` of a path (used for
relative-reference resolution: the base path with its final segment removed). -/
def dropToLastSlash (cs : List Char) : List Char :=
  ((cs.reverse).dropWhile (fun c => c != '/')).reverse

/-! ## URL model

Models the subset of the WHATWG URL handling performed by the `url` crate
that the crawler relies on: absolute parsing of hierarchical
(`scheme://host/path?query#fragment`) and opaque (`mailto:…`, `data:…`)
URLs, serialization (`Url::as_str`), the slice `&url[..Position::BeforePath]`,
`Url::host_str`, and relative-reference resolution against a base
(`Url::options().base_url(…)`).  Ports, userinfo, percent-encoding and
dot-segment normalization are outside the slice of behaviour the verified
claims exercise and are not modelled. -/

/-- Errors of `url::Url::parse` relevant here. -/
inductive ParseError where
  | relativeUrlWithoutBase
  | emptyHost
deriving DecidableEq

/-- A parsed absolute URL.  `host = none` models a cannot-be-a-base URL such
as `mailto:`/`data:` (where `path` holds the opaque content); `host = some h`
models a hierarchical URL whose `path` begins with `/`. -/
structure Url where
  scheme : String
  host : Option String
  path : String
  query : Option String
  fragment : Option String
deriving DecidableEq

/-- `Url::as_str` — the canonical serialization. -/
def Url.as_str (u : Url) : String :=
  u.scheme ++
    (match u.host with
     | some h => "://" ++ h
     | none => ":") ++
    u.path ++
    (match u.query with
     | some q => "?" ++ q
     | none => "") ++
    (match u.fragment with
     | some f => "#" ++ f
     | none => "")

/-- `Url::host_str`. -/
def Url.host_str (u : Url) : Option String :=
  u.host

def isSchemeStart (c : Char) : Bool := c.isAlpha

def isSchemeChar (c : Char) : Bool :=
  c.isAlphanum || c == '+' || c == '-' || c == '.'

/-- Split off a leading `scheme:` when present; the accumulator holds the
scheme characters seen so far, reversed. -/
def splitSchemeAux : List Char → List Char → Option (List Char × List Char)
  | _, [] => none
  | acc, c :: rest =>
    if c == ':' then
      if acc.isEmpty then none else some (acc.reverse, rest)
    else if (if acc.isEmpty then isSchemeStart c else isSchemeChar c) then
      splitSchemeAux (c :: acc) rest
    else none

/-- `splitScheme s` returns `(scheme, rest)` when `s` begins with a valid
`scheme:`, the scheme lower-cased as the `url` crate does. -/
def splitScheme (s : String) : Option (String × String) :=
  match splitSchemeAux [] s.data with
  | some p => some (String.mk (p.1.map Char.toLower), String.mk p.2)
  | none => none

/-- Parse the part after `scheme://`: host up to the first `/`, then path,
query and fragment.  An empty host is a parse error.  A hierarchical URL
with an empty path serializes with path `/` (WHATWG normalization). -/
def parseAfterSlashes (sch : String) (s : List Char) : Except ParseError Url :=
  let f := splitOnceChar '#' s
  let q := splitOnceChar '?' f.1
  let hp := q.1.span (fun c => c != '/')
  if hp.1.isEmpty then .error .emptyHost
  else
    .ok { scheme := sch,
          host := some (String.mk (hp.1.map Char.toLower)),
          path := if hp.2.isEmpty then "/" else String.mk hp.2,
          query := q.2.map String.mk,
          fragment := f.2.map String.mk }

/-- The WHATWG special schemes (the `file:` drive-letter rules are outside
the modelled slice). -/
def specialScheme (s : String) : Bool :=
  s == "http" || s == "https" || s == "ws" || s == "wss" || s == "ftp" ||
    s == "file"

/-- Does the character list begin with `//`? -/
def startsTwoSlashes : List Char → Bool
  | '/' :: '/' :: _ => true
  | _ => false

/-- `url::Url::parse` (no base): requires a scheme.  A special-scheme URL
always parses an authority — the WHATWG *special authority ignore slashes*
state skips any run of slashes after the colon, so `https:c.png` parses as
`https://c.png/`.  A non-special scheme followed by `//` parses an
authority; any other non-special remainder is an opaque cannot-be-a-base
URL. -/
def Url.parse (s : String) : Except ParseError Url :=
  match splitSchemeAux [] s.data with
  | none => .error .relativeUrlWithoutBase
  | some p =>
    if specialScheme (String.mk (p.1.map Char.toLower)) then
      parseAfterSlashes (String.mk (p.1.map Char.toLower))
        (p.2.dropWhile (fun c => c == '/'))
    else
      match p.2 with
      | '/' :: '/' :: rest =>
        parseAfterSlashes (String.mk (p.1.map Char.toLower)) rest
      | rest =>
        .ok { scheme := String.mk (p.1.map Char.toLower),
              host := none,
              path := String.mk (splitOnceChar '?' (splitOnceChar '#' rest).1).1,
              query :=
                ((splitOnceChar '?' (splitOnceChar '#' rest).1).2).map String.mk,
              fragment := ((splitOnceChar '#' rest).2).map String.mk }

/-- The slice `&url[..Position::BeforePath]`: the serialization up to (not
including) the path. -/
def urlBeforePath (u : Url) : String :=
  u.scheme ++
    (match u.host with
     | some h => "://" ++ h
     | none => ":")

/-- The WHATWG *relative state*: resolve a schemeless remainder `cs` against
`base` — `//…` is scheme-relative, `#…` replaces the fragment, a relative
reference against a cannot-be-a-base base fails, the empty reference is the
base minus its fragment, `?…` replaces the query, `/…` is path-absolute, and
anything else replaces the final path segment of the base. -/
def resolveAgainst (cs : List Char) (base : Url) : Except ParseError Url :=
  match cs, base.host with
  | '/' :: '/' :: _, _ => Url.parse (base.scheme ++ ":" ++ String.mk cs)
  | '#' :: frag, _ => .ok { base with fragment := some (String.mk frag) }
  | _, none => .error .relativeUrlWithoutBase
  | [], some _ => .ok { base with fragment := none }
  | '?' :: rest, some _ =>
    let f := splitOnceChar '#' rest
    .ok { base with query := some (String.mk f.1),
                    fragment := f.2.map String.mk }
  | '/' :: restPath, some _ =>
    let f := splitOnceChar '#' ('/' :: restPath)
    let q := splitOnceChar '?' f.1
    .ok { base with path := String.mk q.1,
                    query := q.2.map String.mk,
                    fragment := f.2.map String.mk }
  | cs2, some _ =>
    let f := splitOnceChar '#' cs2
    let q := splitOnceChar '?' f.1
    .ok { base with
          path := String.mk (dropToLastSlash base.path.data ++ q.1),
          query := q.2.map String.mk,
          fragment := f.2.map String.mk }

/-- `Url::options().base_url(Some(base)).parse(input)` — resolution of a
reference against a base, per WHATWG as the `url` crate implements it.
A schemeless reference is resolved relatively.  A reference carrying a
scheme is parsed absolutely — the base is ignored — *except* in the WHATWG
same-special-scheme case: when the reference's scheme is special and equals
the base's scheme and is not followed by `//`, the remainder is resolved
relatively against the base (so `https:c.png` against an `https` base is
`c.png` against that base). -/
def Url.parseWithBase (input : String) (base : Url) : Except ParseError Url :=
  match splitSchemeAux [] input.data with
  | none => resolveAgainst input.data base
  | some p =>
    if specialScheme (String.mk (p.1.map Char.toLower)) ∧
        String.mk (p.1.map Char.toLower) = base.scheme then
      if startsTwoSlashes p.2 then
        parseAfterSlashes (String.mk (p.1.map Char.toLower))
          (p.2.dropWhile (fun c => c == '/'))
      else resolveAgainst p.2 base
    else Url.parse input

/-- A reference is base-independent when it carries a scheme and does not
fall in the WHATWG same-special-scheme relative case: its scheme is
non-special, or differs from the base's scheme, or is followed by `//`. -/
def baseIndependent (input : String) (base : Url) : Bool :=
  match splitSchemeAux [] input.data with
  | none => false
  | some p =>
    if specialScheme (String.mk (p.1.map Char.toLower)) ∧
        String.mk (p.1.map Char.toLower) = base.scheme then
      startsTwoSlashes p.2
    else true

deriving instance DecidableEq for Except

/-! ## Errors, oracles, documents -/

/-- The `error_chain!` foreign links of `main.rs`: `reqwest::Error`,
`std::io::Error`, `url::ParseError` and `tokio::task::JoinError`. -/
inductive CrawlError where
  | reqError
  | ioError
  | urlParseError
  | joinError
deriving DecidableEq

/-- Result of one HTTP probe: either an HTTP status code was obtained, or the
request failed at the transport level (DNS failure, connection refused,
timeout — `reqwest::get` returns `Err`). -/
inductive ProbeResult where
  | status (code : Nat)
  | transportFailure
deriving DecidableEq

/-- What the crawler reads from a parsed `select::document::Document`:
the `href` of the first `<base>` tag if any, the `href` of every `<a>` tag in
document order, the `src` of every `<img>` tag, and the text of every `<loc>`
tag.  `Document::from` never fails, so construction is total. -/
structure Document where
  baseHref : Option String
  hrefs : List String
  srcs : List String
  locs : List String
deriving DecidableEq

/-- The parsed CLI arguments (`struct Args`). -/
structure Args where
  url : String
  links : Bool
  is_xml_sitemap : Bool
  check_images : Bool

/-- Lift a `url::ParseError` through the `?` operator into the crawl's
`error_chain` error type. -/
def liftParse (r : Except ParseError Url) : Except CrawlError Url :=
  match r with
  | .ok u => .ok u
  | .error _ => .error .urlParseError

/-! ## Leaf operations of `main.rs` -/

/-- `check_link`: one `reqwest::get(url.as_ref())` — the first component is
the list of GET requests issued (always exactly the one URL) — then
`StatusCode::OK ⇒ Ok(true)`, any other status `⇒ Ok(false)`; a transport
failure propagates through `?` as `Err`. -/
def check_link (net : String → ProbeResult) (url : Url) :
    List String × Except CrawlError Bool :=
  ([url.as_str],
   match net url.as_str with
   | .status code => if code = 200 then .ok true else .ok false
   | .transportFailure => .error .reqError)

/-- `get_base_url`: the first `<base href>` attribute parsed as a URL when
present, otherwise `Url::parse(&url[..Position::BeforePath])`. -/
def get_base_url (url : Url) (doc : Document) : Except CrawlError Url :=
  liftParse
    (match doc.baseHref with
     | some h => Url.parse h
     | none => Url.parse (urlBeforePath url))

/-- `extract_urls`: the text of every `<loc>` node, in document order. -/
def extract_urls (document : Document) : List String :=
  document.locs

/-- `filter_urls`: `urls.into_iter().filter(|url|
url.contains(domain.host_str().unwrap())).collect()`.  The `unwrap()` runs
inside the filter closure, once per examined element; when the domain has no
host it panics — modelled as `none` — but only if at least one element is
examined.  An empty input produces an empty output without ever unwrapping. -/
def filter_urls (urls : List String) (domain : Url) : Option (List String) :=
  match urls with
  | [] => some []
  | _ :: _ =>
    match domain.host with
    | none => none
    | some h => some (urls.filter (fun u => strContains u h))

/-- `get_document`: fetch the body text (`?` propagates transport failures)
and parse it with `Document::from`, which is total. -/
def get_document (fetch : String → Except CrawlError Document) (url : Url) :
    Except CrawlError Document :=
  fetch url.as_str

/-! ## `find_broken_links_or_images` -/

/-- The raw attribute values examined for an element name:
`n.attr(if element == "a" { "href" } else { "src" })`. -/
def attrRefs (document : Document) (element : String) : List String :=
  if element = "a" then document.hrefs else document.srcs

/-- `filter_map(|link| base_parser.parse(link).ok())` — the Reference
Resolver: resolve each raw reference against the base, silently dropping
those that fail to parse. -/
def resolveRefs (base_url : Url) (refs : List String) : List Url :=
  refs.filterMap (fun r => (Url.parseWithBase r base_url).toOption)

/-- The admission loop of `find_broken_links_or_images`: for each link, skip
it when `viewed` already contains its string, otherwise insert the string and
dispatch the link.  Returns the updated `viewed` and the dispatched links in
order. -/
def admitUrls (viewed : List String) : List Url → List String × List Url
  | [] => (viewed, [])
  | u :: rest =>
    if u.as_str ∈ viewed then admitUrls viewed rest
    else
      ((admitUrls (u.as_str :: viewed) rest).1,
       u :: (admitUrls (u.as_str :: viewed) rest).2)

/-- Result of one call to `find_broken_links_or_images`: the updated
`viewed` map (keys only — every stored value is `true`), the links dispatched
as concurrent tasks, the `println!` report lines produced by tasks that ran
to completion (URL string, is-OK flag), and the function's own return value. -/
structure LinkCheckResult where
  viewed : List String
  dispatched : List Url
  reports : List (String × Bool)
  outcome : Except CrawlError Unit

/-- `find_broken_links_or_images`: collect the element's attribute values,
resolve them against `base_url` into a `HashSet` (modelled as `dedup`),
admit each unseen link into `viewed` and spawn a task for it.  Each task runs
`check_link(&link).await.unwrap()`: a probe that yields a status prints
`... is OK` / `... is Broken`; a transport failure makes `unwrap` panic, so
that task prints nothing and its `task.await?` join fails with a
`JoinError`, which the function returns as `Err`. -/
def find_broken_links_or_images (net : String → ProbeResult) (base_url : Url)
    (document : Document) (element : String) (viewed : List String) :
    LinkCheckResult :=
  let links := (resolveRefs base_url (attrRefs document element)).dedup
  let p := admitUrls viewed links
  let results := p.2.map (fun u => (u.as_str, (check_link net u).2))
  { viewed := p.1,
    dispatched := p.2,
    reports := results.filterMap (fun r =>
      match r.2 with
      | .ok b => some (r.1, b)
      | .error _ => none),
    outcome :=
      if results.any (fun r =>
          match r.2 with
          | .error _ => true
          | .ok _ => false) then .error .joinError
      else .ok () }

/-! ## The `main` orchestration -/

/-- How one invocation of the program ends: normal completion (`Done!`),
a propagated `Err` (non-zero exit), or a Rust panic from `unwrap()`. -/
inductive Outcome where
  | finished
  | fatal (e : CrawlError)
  | panicked
deriving DecidableEq

/-- Observable crawl state: the keys of the shared `viewed` map, the
admission log (each insertion into `viewed`, in order), the URLs passed to
`check_link`, the URLs passed to `get_document`, and the report lines. -/
structure RunState where
  viewed : List String
  admitted : List String
  checked : List String
  fetched : List String
  reports : List (String × Bool)

/-- `main` creates `viewed` empty; nothing has been admitted, checked,
fetched or reported. -/
def initState : RunState :=
  { viewed := [], admitted := [], checked := [], fetched := [], reports := [] }

/-- `viewed.insert(u.clone(), true)` in the sitemap loops. -/
def admitLoc (st : RunState) (u : String) : RunState :=
  { st with viewed := u :: st.viewed, admitted := st.admitted ++ [u] }

/-- One `find_broken_links_or_images(...).await?` call from `main`: merge its
effects into the run state; an `Err` return propagates as fatal. -/
def applyLinkCheck (net : String → ProbeResult) (base : Url) (doc : Document)
    (element : String) (st : RunState) : RunState × Outcome :=
  let r := find_broken_links_or_images net base doc element st.viewed
  ({ st with viewed := r.viewed,
             admitted := st.admitted ++ r.dispatched.map Url.as_str,
             checked := st.checked ++ r.dispatched.map Url.as_str,
             reports := st.reports ++ r.reports },
   match r.outcome with
   | .ok _ => .finished
   | .error e => .fatal e)

/-- The page-mode body (also run per page in sitemap mode): check links when
`args.links`, then images when `args.check_images`, stopping at the first
`Err`. -/
def runPage (net : String → ProbeResult) (args_links args_images : Bool)
    (base : Url) (doc : Document) (st : RunState) : RunState × Outcome :=
  if args_links then
    let p := applyLinkCheck net base doc "a" st
    match p.2 with
    | .finished =>
      if args_images then applyLinkCheck net base doc "img" p.1
      else (p.1, .finished)
    | o => (p.1, o)
  else if args_images then applyLinkCheck net base doc "img" st
  else (st, .finished)

/-- The inner sitemap loop (`for internal_url in internal_filtered_urls`):
skip already-viewed locations, admit the raw location string, parse it
(`Url::parse(&internal_url)?` — failure is fatal), fetch the page
(failure is fatal) and run the page body on it. -/
def runInnerLocs (fetch : String → Except CrawlError Document)
    (net : String → ProbeResult) (args_links args_images : Bool) (base : Url) :
    RunState → List String → RunState × Outcome
  | st, [] => (st, .finished)
  | st, u :: rest =>
    if u ∈ st.viewed then
      runInnerLocs fetch net args_links args_images base st rest
    else
      let st1 := admitLoc st u
      match liftParse (Url.parse u) with
      | .error e => (st1, .fatal e)
      | .ok pu =>
        let st2 := { st1 with fetched := st1.fetched ++ [pu.as_str] }
        match get_document fetch pu with
        | .error e => (st2, .fatal e)
        | .ok doc =>
          let p := runPage net args_links args_images base doc st2
          match p.2 with
          | .finished => runInnerLocs fetch net args_links args_images base p.1 rest
          | o => (p.1, o)

/-- The outer sitemap loop (`for url in filtered_urls`): skip already-viewed
locations, admit the raw location string, parse and fetch it as a
second-level sitemap, extract and domain-filter its locations (the
`filter_urls` unwrap can panic here too) and run the inner loop on them. -/
def runOuterLocs (fetch : String → Except CrawlError Document)
    (net : String → ProbeResult) (args_links args_images : Bool) (base : Url) :
    RunState → List String → RunState × Outcome
  | st, [] => (st, .finished)
  | st, u :: rest =>
    if u ∈ st.viewed then
      runOuterLocs fetch net args_links args_images base st rest
    else
      let st1 := admitLoc st u
      match liftParse (Url.parse u) with
      | .error e => (st1, .fatal e)
      | .ok pu =>
        let st2 := { st1 with fetched := st1.fetched ++ [pu.as_str] }
        match get_document fetch pu with
        | .error e => (st2, .fatal e)
        | .ok internalDoc =>
          match filter_urls (extract_urls internalDoc) base with
          | none => (st2, .panicked)
          | some innerFiltered =>
            let p := runInnerLocs fetch net args_links args_images base st2 innerFiltered
            match p.2 with
            | .finished => runOuterLocs fetch net args_links args_images base p.1 rest
            | o => (p.1, o)

/-- The sitemap branch of `main`: extract the root sitemap's locations,
domain-filter them (`filter_urls` — unwrap panic when the base has no host
and a location is examined) and run the outer loop. -/
def runSitemap (fetch : String → Except CrawlError Document)
    (net : String → ProbeResult) (args_links args_images : Bool) (base : Url)
    (doc : Document) (st : RunState) : RunState × Outcome :=
  match filter_urls (extract_urls doc) base with
  | none => (st, .panicked)
  | some filtered => runOuterLocs fetch net args_links args_images base st filtered

/-- The whole of `main`: parse the root URL (`?`), fetch the root document
(`?`), compute the base URL (`?`), create the empty `viewed` map, then run
the sitemap branch or the page branch according to the flags. -/
def mainRun (fetch : String → Except CrawlError Document)
    (net : String → ProbeResult) (args : Args) : RunState × Outcome :=
  match liftParse (Url.parse args.url) with
  | .error e => (initState, .fatal e)
  | .ok url =>
    let st0 : RunState := { initState with fetched := [url.as_str] }
    match get_document fetch url with
    | .error e => (st0, .fatal e)
    | .ok document =>
      match get_base_url url document with
      | .error e => (st0, .fatal e)
      | .ok base_url =>
        if args.is_xml_sitemap then
          runSitemap fetch net args.links args.check_images base_url document st0
        else
          runPage net args.links args.check_images base_url document st0

/-! ## The run-state invariant behind exactly-once admission -/

/-- The bookkeeping invariant of one crawl run: the keys of `viewed` are
exactly the admission log (newest first), the admission log never repeats a
URL string, and the URLs sent to `check_link` are an ordered sublist of the
admission log. -/
def StateInv (st : RunState) : Prop :=
  st.viewed = st.admitted.reverse ∧ st.admitted.Nodup ∧ List.Sublist st.checked st.admitted

/-! ## Lemmas about admission -/

theorem admitUrls_viewed_eq (l : List Url) :
    ∀ viewed : List String,
      (admitUrls viewed l).1 =
        ((admitUrls viewed l).2.map Url.as_str).reverse ++ viewed := by
  induction l with
  | nil => intro viewed; simp [admitUrls]
  | cons u rest ih =>
    intro viewed
    by_cases h : u.as_str ∈ viewed
    · simpa [admitUrls, h] using ih viewed
    · simp only [admitUrls, if_neg h, List.map_cons, List.reverse_cons,
        List.append_assoc, List.singleton_append]
      exact ih (u.as_str :: viewed)

theorem admitUrls_dispatched_fresh (l : List Url) :
    ∀ viewed : List String, ∀ u ∈ (admitUrls viewed l).2,
      u.as_str ∉ viewed := by
  induction l with
  | nil => intro viewed u hu; simp [admitUrls] at hu
  | cons v rest ih =>
    intro viewed u hu
    by_cases h : v.as_str ∈ viewed
    · rw [admitUrls, if_pos h] at hu
      exact ih viewed u hu
    · rw [admitUrls, if_neg h] at hu
      rcases List.mem_cons.mp hu with rfl | hu
      · exact h
      · intro hv
        exact ih (v.as_str :: viewed) u hu (List.mem_cons_of_mem _ hv)

theorem admitUrls_dispatched_nodup (l : List Url) :
    ∀ viewed : List String,
      ((admitUrls viewed l).2.map Url.as_str).Nodup := by
  induction l with
  | nil => intro viewed; simp [admitUrls]
  | cons v rest ih =>
    intro viewed
    by_cases h : v.as_str ∈ viewed
    · rw [admitUrls, if_pos h]; exact ih viewed
    · rw [admitUrls, if_neg h]
      refine List.nodup_cons.mpr ⟨?_, ih (v.as_str :: viewed)⟩
      intro hmem
      rcases List.mem_map.mp hmem with ⟨u, hu, heq⟩
      exact admitUrls_dispatched_fresh rest (v.as_str :: viewed) u hu
        (heq ▸ List.mem_cons_self _ _)

theorem admitUrls_dispatched_mem (l : List Url) :
    ∀ viewed : List String, ∀ u ∈ (admitUrls viewed l).2, u ∈ l := by
  induction l with
  | nil => intro viewed u hu; simp [admitUrls] at hu
  | cons v rest ih =>
    intro viewed u hu
    by_cases h : v.as_str ∈ viewed
    · rw [admitUrls, if_pos h] at hu
      exact List.mem_cons_of_mem _ (ih viewed u hu)
    · rw [admitUrls, if_neg h] at hu
      rcases List.mem_cons.mp hu with rfl | hu
      · exact List.mem_cons_self _ _
      · exact List.mem_cons_of_mem _ (ih (v.as_str :: viewed) u hu)

theorem initState_inv : StateInv initState := by
  refine ⟨rfl, List.nodup_nil, List.Sublist.refl _⟩

theorem admitLoc_inv {st : RunState} {u : String} (hinv : StateInv st)
    (hu : u ∉ st.viewed) : StateInv (admitLoc st u) := by
  obtain ⟨hveq, hnd, hsub⟩ := hinv
  refine ⟨?_, ?_, ?_⟩
  · simp [admitLoc, hveq, List.reverse_append]
  · refine List.Nodup.append hnd (List.nodup_singleton u) ?_
    intro x hx hx1
    rcases List.mem_singleton.mp hx1 with rfl
    exact hu (hveq ▸ List.mem_reverse.mpr hx)
  · exact hsub.trans (List.sublist_append_left _ _)

theorem applyLinkCheck_inv {net : String → ProbeResult} {base : Url}
    {doc : Document} {element : String} {st : RunState} (hinv : StateInv st) :
    StateInv (applyLinkCheck net base doc element st).1 := by
  obtain ⟨hveq, hnd, hsub⟩ := hinv
  have hfresh := admitUrls_dispatched_fresh
    ((resolveRefs base (attrRefs doc element)).dedup) st.viewed
  have hdnd := admitUrls_dispatched_nodup
    ((resolveRefs base (attrRefs doc element)).dedup) st.viewed
  have hveq2 := admitUrls_viewed_eq
    ((resolveRefs base (attrRefs doc element)).dedup) st.viewed
  refine ⟨?_, ?_, ?_⟩
  · simp only [applyLinkCheck, find_broken_links_or_images]
    simp only [applyLinkCheck, find_broken_links_or_images] at hveq2
    rw [hveq2, hveq, List.reverse_append]
  · simp only [applyLinkCheck, find_broken_links_or_images]
    refine List.Nodup.append hnd hdnd ?_
    intro x hx hx2
    rcases List.mem_map.mp hx2 with ⟨u, hu, heq⟩
    exact hfresh u hu (heq ▸ hveq ▸ List.mem_reverse.mpr hx)
  · simp only [applyLinkCheck, find_broken_links_or_images]
    exact hsub.append (List.Sublist.refl _)

theorem runPage_inv {net : String → ProbeResult} {l i : Bool} {base : Url}
    {doc : Document} {st : RunState} (hinv : StateInv st) :
    StateInv (runPage net l i base doc st).1 := by
  unfold runPage
  by_cases hl : l
  · simp only [hl, if_true]
    rcases hp : (applyLinkCheck net base doc "a" st).2 with _ | e
    · simp only [hp]
      by_cases hi : i
      · simp only [hi, if_true]
        exact applyLinkCheck_inv (applyLinkCheck_inv hinv)
      · simp only [hi, if_false]
        exact applyLinkCheck_inv hinv
    · simp only [hp]
      exact applyLinkCheck_inv hinv
    · simp only [hp]
      exact applyLinkCheck_inv hinv
  · by_cases hi : i
    · simp only [hl, hi, if_true, if_false]
      exact applyLinkCheck_inv hinv
    · simp only [hl, hi, if_false]
      exact hinv

theorem fetchRecord_inv {st : RunState} {s : String} (hinv : StateInv st) :
    StateInv { st with fetched := st.fetched ++ [s] } := by
  exact hinv

theorem runInnerLocs_inv {fetch : String → Except CrawlError Document}
    {net : String → ProbeResult} {l i : Bool} {base : Url} :
    ∀ (locs : List String) (st : RunState), StateInv st →
      StateInv (runInnerLocs fetch net l i base st locs).1 := by
  intro locs
  induction locs with
  | nil => intro st hinv; simpa [runInnerLocs] using hinv
  | cons u rest ih =>
    intro st hinv
    rw [runInnerLocs]
    by_cases hv : u ∈ st.viewed
    · simp only [if_pos hv]
      exact ih st hinv
    · simp only [if_neg hv]
      have h1 : StateInv (admitLoc st u) := admitLoc_inv hinv hv
      rcases liftParse (Url.parse u) with e | pu
      · exact h1
      · simp only []
        have h2 : StateInv { admitLoc st u with
            fetched := (admitLoc st u).fetched ++ [pu.as_str] } := h1
        rcases get_document fetch pu with e | doc
        · exact h2
        · simp only []
          have h3 := @runPage_inv net l i base doc _ h2
          rcases (runPage net l i base doc { admitLoc st u with
              fetched := (admitLoc st u).fetched ++ [pu.as_str] }).2 with _ | e
          · exact ih _ h3
          · exact h3
          · exact h3

theorem runOuterLocs_inv {fetch : String → Except CrawlError Document}
    {net : String → ProbeResult} {l i : Bool} {base : Url} :
    ∀ (locs : List String) (st : RunState), StateInv st →
      StateInv (runOuterLocs fetch net l i base st locs).1 := by
  intro locs
  induction locs with
  | nil => intro st hinv; simpa [runOuterLocs] using hinv
  | cons u rest ih =>
    intro st hinv
    rw [runOuterLocs]
    by_cases hv : u ∈ st.viewed
    · simp only [if_pos hv]
      exact ih st hinv
    · simp only [if_neg hv]
      have h1 : StateInv (admitLoc st u) := admitLoc_inv hinv hv
      rcases liftParse (Url.parse u) with e | pu
      · exact h1
      · simp only []
        have h2 : StateInv { admitLoc st u with
            fetched := (admitLoc st u).fetched ++ [pu.as_str] } := h1
        rcases get_document fetch pu with e | internalDoc
        · exact h2
        · simp only []
          rcases filter_urls (extract_urls internalDoc) base with _ | innerFiltered
          · exact h2
          · simp only []
            have h3 := @runInnerLocs_inv fetch net l i base innerFiltered _ h2
            rcases (runInnerLocs fetch net l i base { admitLoc st u with
                fetched := (admitLoc st u).fetched ++ [pu.as_str] }
                innerFiltered).2 with _ | e
            · exact ih _ h3
            · exact h3
            · exact h3

theorem runSitemap_inv {fetch : String → Except CrawlError Document}
    {net : String → ProbeResult} {l i : Bool} {base : Url} {doc : Document}
    {st : RunState} (hinv : StateInv st) :
    StateInv (runSitemap fetch net l i base doc st).1 := by
  unfold runSitemap
  rcases filter_urls (extract_urls doc) base with _ | filtered
  · exact hinv
  · exact runOuterLocs_inv filtered st hinv

theorem mainRun_inv (fetch : String → Except CrawlError Document)
    (net : String → ProbeResult) (args : Args) :
    StateInv (mainRun fetch net args).1 := by
  unfold mainRun
  rcases liftParse (Url.parse args.url) with e | url
  · exact initState_inv
  · simp only []
    rcases get_document fetch url with e | document
    · exact initState_inv
    · simp only []
      rcases get_base_url url document with e | base_url
      · exact initState_inv
      · simp only []
        by_cases hs : args.is_xml_sitemap
        · simp only [hs, if_true]
          exact runSitemap_inv initState_inv
        · simp only [hs, if_false]
          exact runPage_inv initState_inv

/-- **C1 counterexample.** The "at most one sitemap fetch per distinct
canonical URL" half of the claim is false: the root document is fetched
before the Visited Set exists (`main.rs:118`), so a root sitemap that lists
its own URL as a location gets that location admitted and fetched again
(`main.rs:134`) — the fetch log of this run carries the same canonical URL
twice, and the run still ends normally. -/
theorem duplicate_sitemap_fetch_counterexample :
    (mainRun
        (fun _ => .ok ⟨none, [], [], ["https://example.com/sitemap.xml"]⟩)
        (fun _ => .status 200)
        ⟨"https://example.com/sitemap.xml", false, true, false⟩).1.fetched =
      ["https://example.com/sitemap.xml", "https://example.com/sitemap.xml"] ∧
      ¬ (mainRun
        (fun _ => .ok ⟨none, [], [], ["https://example.com/sitemap.xml"]⟩)
        (fun _ => .status 200)
        ⟨"https://example.com/sitemap.xml", false, true, false⟩).1.fetched.Nodup ∧
      (mainRun
        (fun _ => .ok ⟨none, [], [], ["https://example.com/sitemap.xml"]⟩)
        (fun _ => .status 200)
        ⟨"https://example.com/sitemap.xml", false, true, false⟩).2 =
        .finished := by
  decide

/-- **C1 amended.** For every crawl run (any fetch and probe oracles, any
flags and root URL) and every sequence of documents the oracles provide,
each distinct canonical URL string is admitted into the Visited Set at most
once (the admission log has no duplicates), and the URLs dispatched to the
reachability checker form a sublist of the admission log, hence at most one
reachability check is dispatched per distinct URL string in the whole run,
even when a URL is referenced by several documents or both as a link and an
image.  The analogous at-most-once property does **not** extend to sitemap
fetches per canonical URL: the root fetch is not admission-guarded and raw
location strings are admitted without canonicalization, so the same
canonical URL can be fetched as a sitemap twice in one run. -/
theorem admission_at_most_once (fetch : String → Except CrawlError Document)
    (net : String → ProbeResult) (args : Args) :
    (mainRun fetch net args).1.admitted.Nodup ∧
      List.Sublist (mainRun fetch net args).1.checked
        (mainRun fetch net args).1.admitted ∧
      (mainRun fetch net args).1.checked.Nodup := by
  obtain ⟨hv, hnd, hsub⟩ := mainRun_inv fetch net args
  exact ⟨hnd, hsub, hsub.nodup hnd⟩

/-! ## C3: the reachability-check contract -/

/-- **C3.** For every URL given to `check_link`, exactly one HTTP GET request
is made, to that URL; and when a status is obtained the classification is:
status 200 yields OK (`Ok(true)`), and any other HTTP status — 404, 500, any
3xx — yields Broken (`Ok(false)`). -/
theorem check_link_contract (net : String → ProbeResult) (url : Url) :
    (check_link net url).1 = [url.as_str] ∧
      (net url.as_str = .status 200 → (check_link net url).2 = .ok true) ∧
      (∀ c : Nat, c ≠ 200 → net url.as_str = .status c →
        (check_link net url).2 = .ok false) := by
  refine ⟨rfl, ?_, ?_⟩
  · intro h
    simp [check_link, h]
  · intro c hc h
    simp [check_link, h, hc]

theorem check_link_contract_witness :
    (check_link (fun _ => .status 404)
      ⟨"https", some "x.test", "/", none, none⟩).2 = .ok false :=
  (check_link_contract (fun _ => .status 404)
    ⟨"https", some "x.test", "/", none, none⟩).2.2 404 (by decide) rfl

/-! ## C2: what happens to failed probes -/

/-- **C2 counterexample.** A probe that fails at the transport level is not
recovered into a Broken report: with every probe failing at the transport
level, a page-mode crawl over a page with one link reports nothing (no
`... is Broken` line for the link) and the whole run ends with a fatal
`JoinError` (the spawned task's `unwrap()` panics and `task.await?`
propagates), contradicting the claim that such a failure is reported as
Broken and never escalates to a fatal error. -/
theorem transport_failure_fatal_counterexample :
    (mainRun (fun _ => .ok ⟨none, ["https://x.test/a"], [], []⟩)
        (fun _ => .transportFailure)
        ⟨"https://x.test", true, false, false⟩).2 = .fatal .joinError ∧
      (mainRun (fun _ => .ok ⟨none, ["https://x.test/a"], [], []⟩)
        (fun _ => .transportFailure)
        ⟨"https://x.test", true, false, false⟩).1.reports = [] := by
  decide

/-- **C2 amended.** For every URL dispatched by
`find_broken_links_or_images` whose probe obtains a non-200 HTTP status, the
failure is recovered into the Broken outcome and reported normally; but for
every dispatched URL whose probe fails at the transport level (no HTTP
status obtained), `check_link` returns `Err`, the task's `unwrap()` panics,
the function's return value is the fatal `JoinError` (so the crawl aborts),
and that URL is never reported. -/
theorem probe_failure_handling (net : String → ProbeResult) (base : Url)
    (doc : Document) (element : String) (viewed : List String) :
    (∀ u ∈ (find_broken_links_or_images net base doc element viewed).dispatched,
      ∀ c : Nat, c ≠ 200 → net u.as_str = .status c →
        (u.as_str, false) ∈
          (find_broken_links_or_images net base doc element viewed).reports) ∧
    (∀ u ∈ (find_broken_links_or_images net base doc element viewed).dispatched,
      net u.as_str = .transportFailure →
        (find_broken_links_or_images net base doc element viewed).outcome =
            .error .joinError ∧
          ∀ b : Bool, (u.as_str, b) ∉
            (find_broken_links_or_images net base doc element viewed).reports) := by
  constructor
  · intro u hu c hc hnet
    simp only [find_broken_links_or_images] at hu ⊢
    rw [List.mem_filterMap]
    refine ⟨(u.as_str, (check_link net u).2), List.mem_map_of_mem _ hu, ?_⟩
    simp [check_link, hnet, hc]
  · intro u hu hnet
    constructor
    · simp only [find_broken_links_or_images] at hu ⊢
      rw [if_pos]
      rw [List.any_eq_true]
      refine ⟨(u.as_str, (check_link net u).2), List.mem_map_of_mem _ hu, ?_⟩
      simp [check_link, hnet]
    · intro b hmem
      simp only [find_broken_links_or_images] at hmem
      rw [List.mem_filterMap] at hmem
      obtain ⟨x, hx, hgx⟩ := hmem
      rcases List.mem_map.mp hx with ⟨v, hv, rfl⟩
      rcases hcv : (check_link net v).2 with e | bv
      · rw [hcv] at hgx
        simp at hgx
      · rw [hcv] at hgx
        simp only [Option.some.injEq, Prod.mk.injEq] at hgx
        obtain ⟨hvs, rfl⟩ := hgx
        have : (check_link net v).2 = .error .reqError := by
          simp [check_link, hvs, hnet]
        rw [hcv] at this
        exact Except.noConfusion this

theorem probe_failure_handling_witness :
    ("https://x.test/a", false) ∈
      (find_broken_links_or_images (fun _ => .status 404)
        ⟨"https", some "x.test", "/", none, none⟩
        ⟨none, ["https://x.test/a"], [], []⟩ "a" []).reports :=
  (probe_failure_handling (fun _ => .status 404)
      ⟨"https", some "x.test", "/", none, none⟩
      ⟨none, ["https://x.test/a"], [], []⟩ "a" []).1
    ⟨"https", some "x.test", "/a", none, none⟩ (by decide) 404 (by decide) rfl

/-! ## C4: base-URL computation -/

/-- **C4.** The base URL of a document is computed as: if the document has a
`<base>` tag with an `href` attribute, that href parsed as a URL is the base
(relative references then resolve against it rather than the document's own
URL); otherwise it is the document's own URL truncated through the
`BeforePath` position, parsed back as a URL. -/
theorem base_url_computation (url : Url) (doc : Document) :
    (∀ h : String, doc.baseHref = some h →
      get_base_url url doc = liftParse (Url.parse h)) ∧
    (doc.baseHref = none →
      get_base_url url doc = liftParse (Url.parse (urlBeforePath url))) := by
  constructor
  · intro h hh
    simp [get_base_url, hh]
  · intro hh
    simp [get_base_url, hh]

theorem base_url_computation_witness :
    get_base_url ⟨"https", some "site.test", "/dir/page", none, none⟩
        ⟨some "https://cdn.test/", [], [], []⟩ =
      liftParse (Url.parse "https://cdn.test/") :=
  (base_url_computation ⟨"https", some "site.test", "/dir/page", none, none⟩
    ⟨some "https://cdn.test/", [], [], []⟩).1 "https://cdn.test/" rfl

/-! ## C5: reference-resolution semantics -/

theorem parseWithBase_of_baseIndependent (r : String) (b : Url)
    (h : baseIndependent r b = true) :
    Url.parseWithBase r b = Url.parse r := by
  unfold baseIndependent at h
  unfold Url.parseWithBase Url.parse
  rcases hm : splitSchemeAux [] r.data with _ | p
  · rw [hm] at h
    cases h
  · simp only [hm] at h ⊢
    by_cases hc : specialScheme (String.mk (List.map Char.toLower p.1)) = true ∧
        String.mk (List.map Char.toLower p.1) = b.scheme
    · rw [if_pos hc] at h ⊢
      rw [if_pos h, if_pos hc.1]
    · rw [if_neg hc]

/-- **C5 counterexample.** A reference that is already an absolute URL does
not always resolve independently of the base: `https:c.png` parses on its
own as the absolute URL `https://c.png/`, yet — per the WHATWG
same-special-scheme rule the `url` crate implements — resolving it against
the base `https://x.test/p/q` yields `https://x.test/p/c.png`, not that
URL. -/
theorem absolute_reference_counterexample :
    (Url.parse "https:c.png").map Url.as_str = .ok "https://c.png/" ∧
      (Url.parseWithBase "https:c.png"
          ⟨"https", some "x.test", "/p/q", none, none⟩).map Url.as_str =
        .ok "https://x.test/p/c.png" ∧
      Url.parseWithBase "https:c.png"
          ⟨"https", some "x.test", "/p/q", none, none⟩ ≠
        Url.parse "https:c.png" := by
  decide

/-- **C5 amended.** Reference resolution follows standard
relative-URL-against-base semantics: `"/a/b"` against base
`"https://x.test/p/q"` yields `"https://x.test/a/b"`; `"c.png"` against the
same base yields `"https://x.test/p/c.png"`; and a reference carrying its
own scheme resolves to that reference parsed on its own, regardless of the
base, **except** in the WHATWG same-special-scheme case: a special-scheme
reference whose scheme equals the base's and is not followed by `//` (e.g.
`https:c.png` against an `https` base) is instead resolved relatively
against the base. -/
theorem resolution_correctness :
    (∀ b : Url, Url.parse "https://x.test/p/q" = .ok b →
      (Url.parseWithBase "/a/b" b).map Url.as_str = .ok "https://x.test/a/b" ∧
      (Url.parseWithBase "c.png" b).map Url.as_str =
        .ok "https://x.test/p/c.png") ∧
    (∀ (r : String) (b₁ b₂ : Url), baseIndependent r b₁ = true →
      baseIndependent r b₂ = true →
      Url.parseWithBase r b₁ = Url.parse r ∧
      Url.parseWithBase r b₁ = Url.parseWithBase r b₂) ∧
    ((Url.parseWithBase "https:c.png"
        ⟨"https", some "x.test", "/p/q", none, none⟩).map Url.as_str =
      .ok "https://x.test/p/c.png") := by
  refine ⟨?_, ?_, by decide⟩
  · intro b hb
    have hc : Url.parse "https://x.test/p/q" =
        .ok ⟨"https", some "x.test", "/p/q", none, none⟩ := by decide
    rw [hc] at hb
    obtain rfl := Except.ok.inj hb
    exact ⟨by decide, by decide⟩
  · intro r b₁ b₂ h₁ h₂
    refine ⟨parseWithBase_of_baseIndependent r b₁ h₁, ?_⟩
    rw [parseWithBase_of_baseIndependent r b₁ h₁,
      parseWithBase_of_baseIndependent r b₂ h₂]

theorem resolution_correctness_witness :
    ((Url.parseWithBase "/a/b" ⟨"https", some "x.test", "/p/q", none, none⟩).map
        Url.as_str = .ok "https://x.test/a/b") ∧
      Url.parseWithBase "https://y.test/z"
          ⟨"https", some "x.test", "/p/q", none, none⟩ =
        Url.parse "https://y.test/z" :=
  ⟨(resolution_correctness.1 ⟨"https", some "x.test", "/p/q", none, none⟩
      (by decide)).1,
   (resolution_correctness.2.1 "https://y.test/z"
      ⟨"https", some "x.test", "/p/q", none, none⟩
      ⟨"http", some "other.test", "/", none, none⟩ (by decide) (by decide)).1⟩

/-! ## C6: sitemap domain scoping -/

/-- **C6.** In sitemap mode, when the base URL has a host, `filter_urls`
succeeds and keeps exactly the location strings that textually contain the
host as a substring — every location not containing the host is excluded —
and the sitemap branch recurses exactly on that filtered list. -/
theorem domain_scoping (urls : List String) (domain : Url) (h : String)
    (hh : domain.host_str = some h) :
    (∃ kept : List String, filter_urls urls domain = some kept ∧
      ∀ u : String, u ∈ kept ↔ (u ∈ urls ∧ strContains u h = true)) ∧
    (∀ (fetch : String → Except CrawlError Document)
        (net : String → ProbeResult) (l i : Bool) (st : RunState)
        (doc : Document) (kept : List String),
      filter_urls (extract_urls doc) domain = some kept →
      runSitemap fetch net l i domain doc st =
        runOuterLocs fetch net l i domain st kept) := by
  constructor
  · have hh2 : domain.host = some h := hh
    unfold filter_urls
    rcases urls with _ | ⟨u0, rest⟩
    · exact ⟨[], rfl, by simp⟩
    · rw [hh2]
      refine ⟨_, rfl, ?_⟩
      intro u
      simp [List.mem_filter]
  · intro fetch net l i st doc kept hk
    simp [runSitemap, hk]

theorem domain_scoping_witness :
    ∃ kept : List String,
      filter_urls ["https://example.com/a", "https://other.test/b"]
          ⟨"https", some "example.com", "/", none, none⟩ = some kept ∧
        ∀ u : String, u ∈ kept ↔
          (u ∈ ["https://example.com/a", "https://other.test/b"] ∧
            strContains u "example.com" = true) :=
  (domain_scoping ["https://example.com/a", "https://other.test/b"]
    ⟨"https", some "example.com", "/", none, none⟩ "example.com" rfl).1

/-! ## C7: document fetch/parse failures are fatal -/

/-- **C7.** Any failure to obtain a document aborts the entire crawl
immediately as a fatal error, with no per-document isolation: in the sitemap
page loop, an unparsable location URL aborts with the fatal URL-parse error,
and a failed document fetch aborts with that fetch's error, in both cases
without processing any remaining location; and a failed fetch of the root
document makes the whole run fatal before anything is admitted or checked. -/
theorem document_failure_fatal
    (fetch : String → Except CrawlError Document) (net : String → ProbeResult)
    (l i : Bool) (base : Url) (st : RunState) (u : String)
    (rest : List String) (hv : u ∉ st.viewed) :
    (∀ e : CrawlError, liftParse (Url.parse u) = .error e →
      runInnerLocs fetch net l i base st (u :: rest) =
        (admitLoc st u, .fatal e)) ∧
    (∀ (pu : Url) (e : CrawlError), liftParse (Url.parse u) = .ok pu →
      fetch pu.as_str = .error e →
      runInnerLocs fetch net l i base st (u :: rest) =
        ({ admitLoc st u with
            fetched := (admitLoc st u).fetched ++ [pu.as_str] }, .fatal e)) ∧
    (∀ (args : Args) (url : Url) (e : CrawlError),
      liftParse (Url.parse args.url) = .ok url →
      fetch url.as_str = .error e →
      mainRun fetch net args =
        ({ initState with fetched := [url.as_str] }, .fatal e)) := by
  refine ⟨?_, ?_, ?_⟩
  · intro e he
    rw [runInnerLocs]
    simp [hv, he]
  · intro pu e hpu hfe
    rw [runInnerLocs]
    simp [hv, hpu, get_document, hfe]
  · intro args url e hurl hfe
    unfold mainRun
    simp [hurl, get_document, hfe]

theorem document_failure_fatal_witness :
    runInnerLocs (fun _ => .error .reqError) (fun _ => .status 200) true false
        ⟨"https", some "x.test", "/", none, none⟩ initState ["notaurl"] =
      (admitLoc initState "notaurl", .fatal .urlParseError) :=
  (document_failure_fatal (fun _ => .error .reqError) (fun _ => .status 200)
      true false ⟨"https", some "x.test", "/", none, none⟩ initState
      "notaurl" [] (by decide)).1 .urlParseError rfl

/-! ## C8: malformed references are dropped silently -/

/-- **C8.** A raw reference that fails to parse even against the document's
base is silently dropped: the resolver's output over the reference list is
unchanged by its presence, and the entire result of
`find_broken_links_or_images` — Visited Set insertions, dispatched checks,
report lines and return value — is identical to the run on the same document
without that reference; in particular no error is raised. -/
theorem malformed_reference_dropped (net : String → ProbeResult) (base : Url)
    (bh : Option String) (pre post srcs locs : List String)
    (viewed : List String) (r : String) (e : ParseError)
    (he : Url.parseWithBase r base = .error e) :
    resolveRefs base (pre ++ r :: post) = resolveRefs base (pre ++ post) ∧
      find_broken_links_or_images net base ⟨bh, pre ++ r :: post, srcs, locs⟩
          "a" viewed =
        find_broken_links_or_images net base ⟨bh, pre ++ post, srcs, locs⟩
          "a" viewed := by
  have hres : resolveRefs base (pre ++ r :: post) =
      resolveRefs base (pre ++ post) := by
    unfold resolveRefs
    rw [List.filterMap_append, List.filterMap_append, List.filterMap_cons]
    rw [he]
    rfl
  refine ⟨hres, ?_⟩
  simp only [find_broken_links_or_images, attrRefs, eq_self_iff_true, if_true]
  rw [hres]

theorem malformed_reference_dropped_witness :
    find_broken_links_or_images (fun _ => .status 200)
        ⟨"https", some "x.test", "/", none, none⟩
        ⟨none, ["https://", "https://x.test/a"], [], []⟩ "a" [] =
      find_broken_links_or_images (fun _ => .status 200)
        ⟨"https", some "x.test", "/", none, none⟩
        ⟨none, ["https://x.test/a"], [], []⟩ "a" [] :=
  (malformed_reference_dropped (fun _ => .status 200)
    ⟨"https", some "x.test", "/", none, none⟩ none [] ["https://x.test/a"]
    [] [] [] "https://" .emptyHost (by decide)).2

/-! ## C9: are all Visited-Set entries absolute canonical URLs? -/

/-- **C9 counterexample.** In sitemap mode the raw location text is inserted
into the Visited Set before URL parsing: crawling a sitemap whose single
location is the relative string `example.com/page1` (it contains the host,
so the domain filter keeps it) leaves that string in the Visited Set even
though it is not parseable as an absolute URL at all — the crawl then aborts
on `Url::parse`.  So not every string entering the Visited Set is an
absolute canonical URL. -/
theorem visited_canonical_counterexample :
    "example.com/page1" ∈
      (mainRun
        (fun _ => .ok ⟨none, [], [], ["example.com/page1"]⟩)
        (fun _ => .status 200)
        ⟨"https://example.com/sitemap.xml", false, true, false⟩).1.viewed ∧
      Url.parse "example.com/page1" = .error .relativeUrlWithoutBase := by
  decide

/-- **C9 amended.** Every URL dispatched to the reachability checker is an
output of the reference resolver — an absolute parsed URL — and the strings
`find_broken_links_or_images` inserts into the Visited Set are exactly the
canonical serializations of the dispatched URLs (in both modes, since
sitemap mode checks references through the same procedure).  In sitemap
mode, however, the raw location strings themselves are admitted into the
Visited Set before URL parsing, so a non-absolute or non-canonical string
can enter the Visited Set. -/
theorem checker_urls_canonical (net : String → ProbeResult) (base : Url)
    (doc : Document) (element : String) (viewed : List String) :
    (∀ u ∈ (find_broken_links_or_images net base doc element viewed).dispatched,
      u ∈ resolveRefs base (attrRefs doc element)) ∧
    (find_broken_links_or_images net base doc element viewed).viewed =
      ((find_broken_links_or_images net base doc element viewed).dispatched.map
        Url.as_str).reverse ++ viewed := by
  constructor
  · intro u hu
    simp only [find_broken_links_or_images] at hu
    exact List.mem_dedup.mp (admitUrls_dispatched_mem _ _ u hu)
  · simp only [find_broken_links_or_images]
    exact admitUrls_viewed_eq _ _

theorem checker_urls_canonical_witness :
    (⟨"https", some "x.test", "/a", none, none⟩ : Url) ∈
      resolveRefs ⟨"https", some "x.test", "/", none, none⟩
        (attrRefs ⟨none, ["https://x.test/a"], [], []⟩ "a") :=
  (checker_urls_canonical (fun _ => .status 200)
      ⟨"https", some "x.test", "/", none, none⟩
      ⟨none, ["https://x.test/a"], [], []⟩ "a" []).1
    ⟨"https", some "x.test", "/a", none, none⟩ (by decide)

/-! ## C10: the host unwrap in `filter_urls` -/

/-- **C10 counterexample.** The `unwrap()` in `filter_urls` runs inside the
filter closure, once per examined location, so a sitemap-mode run whose base
URL has no host but whose root sitemap yields no locations never examines an
element, never unwraps, and completes normally instead of panicking: here
the base tag makes the base the hostless `mailto:ops@example.com`, the
sitemap has no `<loc>` entries, and the run finishes. -/
theorem hostless_filter_counterexample :
    get_base_url ⟨"https", some "example.com", "/sitemap.xml", none, none⟩
        ⟨some "mailto:ops@example.com", [], [], []⟩ =
      .ok ⟨"mailto", none, "ops@example.com", none, none⟩ ∧
      Url.host_str ⟨"mailto", none, "ops@example.com", none, none⟩ = none ∧
      (mainRun
        (fun _ => .ok ⟨some "mailto:ops@example.com", [], [], []⟩)
        (fun _ => .status 200)
        ⟨"https://example.com/sitemap.xml", false, true, false⟩).2 =
        .finished := by
  decide

/-- **C10 amended.** `filter_urls` unwraps the base URL's host inside the
filter closure, once per examined location string; so in any sitemap-mode
run whose base URL (e.g. one taken from a `mailto:` or `data:` base tag) has
no host and whose root sitemap yields at least one location string, the
program panics instead of returning an error result.  (A run that never
examines a location — an empty sitemap — completes without panicking.) -/
theorem hostless_filter_panics (fetch : String → Except CrawlError Document)
    (net : String → ProbeResult) (l i : Bool) (base : Url) (doc : Document)
    (st : RunState) (hh : base.host_str = none)
    (hne : extract_urls doc ≠ []) :
    runSitemap fetch net l i base doc st = (st, .panicked) := by
  have hh2 : base.host = none := hh
  unfold runSitemap
  rcases hd : extract_urls doc with _ | ⟨u0, rest⟩
  · exact absurd hd hne
  · simp [filter_urls, hh2]

theorem hostless_filter_panics_witness :
    runSitemap (fun _ => .error .reqError) (fun _ => .status 200) true false
        ⟨"mailto", none, "ops@example.com", none, none⟩
        ⟨none, [], [], ["https://example.com/page1"]⟩ initState =
      (initState, .panicked) :=
  hostless_filter_panics (fun _ => .error .reqError) (fun _ => .status 200)
    true false ⟨"mailto", none, "ops@example.com", none, none⟩
    ⟨none, [], [], ["https://example.com/page1"]⟩ initState rfl (by decide)

end HtmlFind

